import Mathlib

/-!
Verification of the Personal-Task-Assistant core (shallow embedding).

The definitions below embed, from the Python sources:
  * `assistant.py`: `validate_due_str`, `_add_months`, `_add_years`, `next_due`,
    `extract_recurrence`, `add_task`, `mark_done`;
  * `reminder.py`: `check_tasks` (one poll cycle of the scheduler).

Timestamps are strings `YYYY-MM-DD HH:MM`; `strptime`/`strftime` are embedded
as `parseDue`/`formatDue` over a `DateTime` record on the proleptic Gregorian
calendar.  Python date arithmetic on naive datetimes is exact minute/day
arithmetic, embedded via `nextDay`/`prevDay`/`addMinutes`.  A Python `datetime`
must satisfy `1 <= year <= 9999`; results outside that range raise, which is
embedded as the `outOfRange` error of `nextDue`.  Exceptions become `Except`
values; store load/save is threaded as an explicit task-list argument; the
notification and voice side channels are recorded as an `Event` trace.
-/

namespace PTA

/-- Gregorian leap-year rule (`calendar.isleap` as used by `monthrange`). -/
def isLeap (y : Nat) : Bool :=
  (y % 4 == 0 && y % 100 != 0) || (y % 400 == 0)

/-- Number of days of month `m` of year `y` (`calendar.monthrange(y, m)[1]`).
Only meaningful for `1 ≤ m ≤ 12`. -/
def daysInMonth (y m : Nat) : Nat :=
  match m with
  | 1 => 31
  | 2 => if isLeap y then 29 else 28
  | 3 => 31
  | 4 => 30
  | 5 => 31
  | 6 => 30
  | 7 => 31
  | 8 => 31
  | 9 => 30
  | 10 => 31
  | 11 => 30
  | 12 => 31
  | _ => 31

/-- A minute-precision timestamp, the value underlying a parsed due string. -/
structure DateTime where
  year : Nat
  month : Nat
  day : Nat
  hour : Nat
  minute : Nat
  deriving DecidableEq

/-- Field ranges of a well-formed `DateTime` (what `datetime` enforces,
except for the year bounds, which are tracked separately). -/
def Valid (d : DateTime) : Prop :=
  1 ≤ d.month ∧ d.month ≤ 12 ∧ 1 ≤ d.day ∧ d.day ≤ daysInMonth d.year d.month ∧
    d.hour ≤ 23 ∧ d.minute ≤ 59

instance instDecidableValid (d : DateTime) : Decidable (Valid d) := by
  unfold Valid; infer_instance

/-- Value 1 on leap years, else 0. -/
def leapBit (y : Nat) : Nat := if isLeap y then 1 else 0

/-- Number of leap years among `0, 1, ..., y - 1` (proleptic Gregorian,
counting year 0 as leap). -/
def leapsBefore (y : Nat) : Nat := (y + 3) / 4 - (y + 99) / 100 + (y + 399) / 400

/-- Days from `0000-01-01` to `y-01-01`; the day measure's year part. -/
def dBY (y : Nat) : Nat := 365 * y + leapsBefore y

/-- Days from `y-01-01` to `y-m-01` (for `1 ≤ m ≤ 12`). -/
def dBM (y m : Nat) : Nat :=
  match m with
  | 1 => 0
  | 2 => 31
  | 3 => 59 + leapBit y
  | 4 => 90 + leapBit y
  | 5 => 120 + leapBit y
  | 6 => 151 + leapBit y
  | 7 => 181 + leapBit y
  | 8 => 212 + leapBit y
  | 9 => 243 + leapBit y
  | 10 => 273 + leapBit y
  | 11 => 304 + leapBit y
  | 12 => 334 + leapBit y
  | _ => 0

/-- Day index of a date: days since `0000-01-01`.  Strictly monotone along
`nextDay`/`prevDay`, which is what makes rescheduled due strings differ. -/
def measureD (d : DateTime) : Nat := dBY d.year + dBM d.year d.month + (d.day - 1)

/-- Successor day on the proleptic Gregorian calendar. -/
def nextDay (d : DateTime) : DateTime :=
  if d.day < daysInMonth d.year d.month then {d with day := d.day + 1}
  else if d.month < 12 then {d with month := d.month + 1, day := 1}
  else {d with year := d.year + 1, month := 1, day := 1}

/-- Predecessor day on the proleptic Gregorian calendar. -/
def prevDay (d : DateTime) : DateTime :=
  if 1 < d.day then {d with day := d.day - 1}
  else if 1 < d.month then {d with month := d.month - 1, day := daysInMonth d.year (d.month - 1)}
  else {d with year := d.year - 1, month := 12, day := 31}

/-- Date `n` days later (`datetime + timedelta(days=n)` for `n ≥ 0`). -/
def addDaysNat : Nat → DateTime → DateTime
  | 0, d => d
  | n + 1, d => nextDay (addDaysNat n d)

/-- Date `n` days earlier (`datetime - timedelta(days=n)` for `n ≥ 0`). -/
def subDaysNat : Nat → DateTime → DateTime
  | 0, d => d
  | n + 1, d => prevDay (subDaysNat n d)

/-- Signed minute offset of `d` shifted by `k` minutes, in minutes from
midnight of `d`'s date. -/
def timeShift (d : DateTime) (k : Int) : Int :=
  ((d.hour * 60 + d.minute : Nat) : Int) + k

/-- The time-of-day part of `d` shifted by `k` minutes, reduced modulo one
day (the remainder of Python's `divmod` normalisation). -/
def minuteBase (d : DateTime) (k : Int) : DateTime :=
  { d with
    hour := ((timeShift d k).emod 1440).toNat / 60,
    minute := ((timeShift d k).emod 1440).toNat % 60 }

/-- Embeds `datetime + timedelta(minutes=k)`: exact minute arithmetic, carrying whole
days into the date part (Python's `divmod` normalisation). -/
def addMinutes (d : DateTime) (k : Int) : DateTime :=
  if 0 ≤ (timeShift d k).ediv 1440 then
    addDaysNat ((timeShift d k).ediv 1440).toNat (minuteBase d k)
  else subDaysNat (-(timeShift d k).ediv 1440).toNat (minuteBase d k)

/-- Embeds `_add_months` (src/assistant.py:67-72). -/
def addMonths (d : DateTime) (months : Nat) : DateTime :=
  let month0 := d.month - 1 + months
  let year := d.year + month0 / 12
  let month := month0 % 12 + 1
  let day := min d.day (daysInMonth year month)
  ⟨year, month, day, d.hour, d.minute⟩

/-- Embeds `_add_years` (src/assistant.py:74-81); the `try datetime(year, 2, 29)`
succeeds exactly when the target year is a leap year. -/
def addYears (d : DateTime) (years : Nat) : DateTime :=
  let y := d.year + years
  if d.month = 2 ∧ d.day = 29 then
    if isLeap y then ⟨y, 2, 29, d.hour, d.minute⟩ else ⟨y, 2, 28, d.hour, d.minute⟩
  else ⟨y, d.month, d.day, d.hour, d.minute⟩

/-- Digit character of `k % 10`. -/
def dig (k : Nat) : Char := Char.ofNat (48 + k % 10)

/-- Numeric value of a digit character. -/
def digitVal (c : Char) : Nat := c.toNat - 48

/-- Two-digit zero-padded rendering (strftime `%m`, `%d`, `%H`, `%M`). -/
def pad2 (n : Nat) : List Char := [dig (n / 10), dig n]

/-- Four-digit zero-padded rendering (strftime `%Y`). -/
def pad4 (n : Nat) : List Char := [dig (n / 1000), dig (n / 100), dig (n / 10), dig n]

/-- Character list of `strftime("%Y-%m-%d %H:%M")`. -/
def formatList (d : DateTime) : List Char :=
  pad4 d.year ++ '-' :: (pad2 d.month ++ '-' :: (pad2 d.day ++
    ' ' :: (pad2 d.hour ++ ':' :: pad2 d.minute)))

/-- Embeds `strftime("%Y-%m-%d %H:%M")`. -/
def formatDue (d : DateTime) : String := String.mk (formatList d)

/-- Consume up to `maxN` leading digits, returning (value, count, rest);
models a greedy `\d{1,maxN}` group of `strptime`'s field regex. -/
def takeDigitsGo : Nat → List Char → Nat → Nat → Nat × Nat × List Char
  | 0, l, acc, cnt => (acc, cnt, l)
  | _ + 1, [], acc, cnt => (acc, cnt, [])
  | m + 1, c :: t, acc, cnt =>
    if c.isDigit then takeDigitsGo m t (acc * 10 + digitVal c) (cnt + 1)
    else (acc, cnt, c :: t)

/-- Embeds `strptime(s, "%Y-%m-%d %H:%M")`: exactly four year digits, one or two
digits for the other fields, the literal separators, no trailing characters,
and the range checks `datetime` performs (including day-vs-month-length). -/
def parseList (l : List Char) : Option DateTime :=
  match takeDigitsGo 4 l 0 0 with
  | (y, cy, r1) =>
    if cy = 4 then
      match r1 with
      | '-' :: r2 =>
        match takeDigitsGo 2 r2 0 0 with
        | (mo, cm, r3) =>
          if cm = 0 then none else
          match r3 with
          | '-' :: r4 =>
            match takeDigitsGo 2 r4 0 0 with
            | (dy, cd, r5) =>
              if cd = 0 then none else
              match r5 with
              | ' ' :: r6 =>
                match takeDigitsGo 2 r6 0 0 with
                | (hh, chh, r7) =>
                  if chh = 0 then none else
                  match r7 with
                  | ':' :: r8 =>
                    match takeDigitsGo 2 r8 0 0 with
                    | (mi, cmi, r9) =>
                      if cmi = 0 then none else
                      if r9 = [] ∧ 1 ≤ y ∧ 1 ≤ mo ∧ mo ≤ 12 ∧ 1 ≤ dy ∧
                          dy ≤ daysInMonth y mo ∧ hh ≤ 23 ∧ mi ≤ 59 then
                        some ⟨y, mo, dy, hh, mi⟩
                      else none
                  | _ => none
              | _ => none
          | _ => none
      | _ => none
    else none

/-- Parse a due string; `none` is `strptime` raising `ValueError`. -/
def parseDue (s : String) : Option DateTime := parseList s.toList

/-- Embeds `validate_due_str` (src/assistant.py:60-65). -/
def validateDueStr (s : String) : Bool := (parseDue s).isSome

/-- Failure modes of `next_due`; in the source all are exceptions
(`ValueError` from `strptime`, the two explicit `raise ValueError`s, and the
`OverflowError`/`ValueError` of out-of-range `datetime` results). -/
inductive NDErr where
  | parseErr
  | invalidRecurrence
  | missingInterval
  | outOfRange
  deriving DecidableEq

/-- Rendering of a `next_due` failure, as interpolated into warning
messages by `mark_done`. -/
def errMsg : NDErr → String
  | .parseErr => "time data does not match format"
  | .invalidRecurrence => "Invalid recurrence for next_due"
  | .missingInterval => "minutes_interval must be provided for every_x_minutes recurrence"
  | .outOfRange => "date value out of range"

/-- Dispatch of `next_due` (src/assistant.py:84-100) on an already-parsed
datetime.  Note the `if not minutes_interval` truthiness test: it rejects an
absent or zero interval but accepts a negative one. -/
def nextDueCore (dt : DateTime) (recurrence : Option String) (interval : Option Int) :
    Except NDErr DateTime :=
  if recurrence = some "daily" then .ok (addDaysNat 1 dt)
  else if recurrence = some "weekly" then .ok (addDaysNat 7 dt)
  else if recurrence = some "monthly" then .ok (addMonths dt 1)
  else if recurrence = some "yearly" then .ok (addYears dt 1)
  else if recurrence = some "every_x_minutes" then
    match interval with
    | none => .error .missingInterval
    | some k => if k = 0 then .error .missingInterval else .ok (addMinutes dt k)
  else .error .invalidRecurrence

/-- Embeds `next_due` (src/assistant.py:84-100): parse the due string,
advance it, and re-render it; any result a Python `datetime` cannot
represent (year outside `1..9999`) raises, hence `outOfRange`. -/
def nextDue (due : String) (recurrence : Option String) (interval : Option Int) :
    Except NDErr String :=
  match parseDue due with
  | none => .error .parseErr
  | some dt =>
    match nextDueCore dt recurrence interval with
    | .error e => .error e
    | .ok dt' =>
      if 1 ≤ dt'.year ∧ dt'.year ≤ 9999 then .ok (formatDue dt') else .error .outOfRange

/-- A stored task record.  A missing `due` key behaves like `""` (both are
falsy and both make `next_due` raise), a missing `done` key like `false`. -/
structure Task where
  description : String
  due : String
  done : Bool
  recurrence : Option String
  minutes_interval : Option Int
  deriving DecidableEq

/-- Python truthiness of the `recurrence` field (`None` and `""` are falsy). -/
def recTruthy : Option String → Prop
  | none => False
  | some s => s ≠ ""

instance instDecRecTruthy (r : Option String) : Decidable (recTruthy r) := by
  cases r <;> simp [recTruthy] <;> infer_instance

/-- Python truthiness of the `minutes_interval` field (`None` and `0` falsy). -/
def intTruthy : Option Int → Prop
  | none => False
  | some k => k ≠ 0

instance instDecIntTruthy (i : Option Int) : Decidable (intTruthy i) := by
  cases i <;> simp [intTruthy] <;> infer_instance

/-- Calls made on the notification/voice side channels. -/
inductive Event where
  | notifyE (title msg : String)
  | speakE (msg : String)
  deriving DecidableEq

/-- One task's handling inside a `check_tasks` poll cycle
(src/reminder.py:16-51): skip tasks without a due string; fire exactly when
`done` is false and `due` equals the current minute string; then reschedule
through `next_due` when `recurrence or minutes_interval` is truthy, closing
the task if rescheduling raises, and close one-time tasks. -/
def processTask (now : String) (t : Task) : Task × List Event :=
  if t.due = "" then (t, [])
  else if t.done = false ∧ t.due = now then
    let msg := "Reminder: " ++ t.description
    let evs := [Event.notifyE "Task Reminder" msg, Event.speakE msg]
    if recTruthy t.recurrence ∨ intTruthy t.minutes_interval then
      match nextDue t.due t.recurrence t.minutes_interval with
      | .ok nd => ({t with due := nd, done := false}, evs)
      | .error _ => ({t with done := true}, evs)
    else ({t with done := true}, evs)
  else (t, [])

/-- Embeds one `check_tasks` poll cycle (src/reminder.py:11-54) over a loaded
task list: the resulting list is what gets saved back (the source saves only
when something fired, which leaves the same list either way), paired with the
concatenated notification/voice trace. -/
def checkTasks (now : String) (tasks : List Task) : List Task × List Event :=
  (tasks.map fun t => (processTask now t).1,
    (tasks.map fun t => (processTask now t).2).flatten)

/-- Embeds `mark_done` (src/assistant.py:185-205).  The store is threaded as
the task-list argument; `IndexError` is the `.error` case; recurrence-advance
failure is recovered into force-closing the task plus a spoken warning. -/
def markDone (tasks : List Task) (index : Nat) (done : Bool) :
    Except String (List Task × List Event) :=
  match tasks[index]? with
  | none => .error "Task index out of range."
  | some task =>
    if done ∧ recTruthy task.recurrence then
      match nextDue task.due task.recurrence task.minutes_interval with
      | .ok nd =>
        .ok (tasks.set index {task with due := nd, done := false},
          [.speakE ("Task rescheduled for " ++ nd)])
      | .error e =>
        .ok (tasks.set index {task with done := true},
          [.speakE ("Error rescheduling task; marked done. (" ++ errMsg e ++ ")")])
    else
      .ok (tasks.set index {task with done := done},
        [.speakE ("Task " ++ (if done then "completed" else "reopened") ++ ": " ++
          task.description)])

/-- The characters Python's `\s` matches in ASCII, which is also the set
`str.strip()` removes from ASCII text. -/
def isSpaceC (c : Char) : Bool :=
  c = ' ' || c = '\t' || c = '\n' || c = '\x0d' || c = '\x0b' || c = '\x0c'

/-- Python `str.strip()` on ASCII text: drop whitespace from both ends. -/
def pyStrip (s : String) : String :=
  String.mk ((((s.toList.dropWhile isSpaceC).reverse).dropWhile isSpaceC).reverse)

/-- Failure modes of `add_task` (all `ValueError`s with distinct messages). -/
inductive AddErr where
  | emptyDescription
  | invalidDueFormat
  | invalidRecurrence
  | invalidInterval
  deriving DecidableEq

/-- Membership of the recurrence argument in `valid_recurrences`
(src/assistant.py:156). -/
def recAllowed (r : Option String) : Bool :=
  r = none || r = some "daily" || r = some "weekly" || r = some "monthly" ||
    r = some "yearly" || r = some "every_x_minutes"

/-- Python `not minutes_interval or minutes_interval <= 0`
(src/assistant.py:168). -/
def intervalBad (i : Option Int) : Bool :=
  match i with
  | none => true
  | some k => k ≤ 0

/-- Embeds `add_task` (src/assistant.py:150-174).  Every validation failure
raises before `tasks.append`/`save_tasks`, so the stored list is unchanged
exactly when the result is an error; on success the one new task (with
`done=false`, and an interval only for `every_x_minutes`) is appended. -/
def addTask (description due : String) (recurrence : Option String)
    (minutes_interval : Option Int) (tasks : List Task) : Except AddErr (List Task) :=
  if pyStrip description = "" then .error .emptyDescription
  else if validateDueStr due = false then .error .invalidDueFormat
  else if recAllowed recurrence = false then .error .invalidRecurrence
  else if recurrence = some "every_x_minutes" ∧ intervalBad minutes_interval then
    .error .invalidInterval
  else
    .ok (tasks ++ [⟨pyStrip description, due, false, recurrence,
      if recurrence = some "every_x_minutes" then minutes_interval else none⟩])

/-- ASCII lowercasing, the fragment of `str.lower()` the recurrence cues use. -/
def asciiLower (c : Char) : Char :=
  if 'A' ≤ c ∧ c ≤ 'Z' then Char.ofNat (c.toNat + 32) else c

/-- Lowercase a character list. -/
def lowerL (l : List Char) : List Char := l.map asciiLower

/-- Does `pat` occur at the head of `l`? -/
def startsWithL : List Char → List Char → Bool
  | [], _ => true
  | _ :: _, [] => false
  | p :: ps, c :: cs => p = c && startsWithL ps cs

/-- Python substring containment `pat in l`. -/
def containsSeq (pat : List Char) : List Char → Bool
  | [] => startsWithL pat []
  | c :: cs => startsWithL pat (c :: cs) || containsSeq pat cs

/-- Strip a literal sequence from the head of `l`, or fail. -/
def stripSeq : List Char → List Char → Option (List Char)
  | [], l => some l
  | _ :: _, [] => none
  | p :: ps, c :: cs => if p = c then stripSeq ps cs else none

/-- Value of a digit run (`int(m.group(1))`). -/
def digitsToNat (ds : List Char) : Nat :=
  ds.foldl (fun a c => a * 10 + digitVal c) 0

/-- Match `every (\d+)\s*<unit>` at the head of `l`, returning the digit
group's value.  The greedy `\d+` and `\s*` never need backtracking here
because a digit is not whitespace and `unit` starts with a letter. -/
def matchEveryUnit (unit : List Char) (l : List Char) : Option Nat :=
  match stripSeq ("every ".toList) l with
  | none => none
  | some l1 =>
    let ds := l1.takeWhile Char.isDigit
    if ds = [] then none
    else
      let l2 := (l1.dropWhile Char.isDigit).dropWhile isSpaceC
      match stripSeq unit l2 with
      | none => none
      | some _ => some (digitsToNat ds)

/-- Embeds `re.search` of `every (\d+)\s*<unit>s?`: leftmost match wins (the
optional trailing `s` constrains nothing further, so it is not tested). -/
def searchEvery (unit : List Char) : List Char → Option Nat
  | [] => matchEveryUnit unit []
  | c :: cs =>
    match matchEveryUnit unit (c :: cs) with
    | some n => some n
    | none => searchEvery unit cs

/-- Embeds `extract_recurrence` (src/assistant.py:102-122): the documented
scan order over the lowercased text; first match wins. -/
def extractRecurrence (text : List Char) : Option String × Option Nat :=
  let t := lowerL text
  if containsSeq ("every day".toList) t || containsSeq ("daily".toList) t then
    (some "daily", none)
  else if containsSeq ("every week".toList) t || containsSeq ("weekly".toList) t then
    (some "weekly", none)
  else if containsSeq ("every month".toList) t || containsSeq ("monthly".toList) t then
    (some "monthly", none)
  else if containsSeq ("every year".toList) t || containsSeq ("yearly".toList) t then
    (some "yearly", none)
  else
    match searchEvery ("minute".toList) t with
    | some n => (some "every_x_minutes", some n)
    | none =>
      match searchEvery ("hour".toList) t with
      | some n => (some "every_x_minutes", some (n * 60))
      | none => (none, none)

/-- Match `every\s+(\d+)\s+minutes?` at the head of `l` (the only pattern
rule of `parse_nlp_task`, src/assistant.py:233): literal "every", one or
more whitespace, digits, one or more whitespace, "minute" with nothing
required after it.  The greedy `\s+`/`\d+` never need backtracking here. -/
def matchEveryMinutesNlp (l : List Char) : Option Nat :=
  match stripSeq ("every".toList) l with
  | none => none
  | some l1 =>
    if l1.takeWhile isSpaceC = [] then none
    else
      let l2 := l1.dropWhile isSpaceC
      let ds := l2.takeWhile Char.isDigit
      if ds = [] then none
      else
        let l3 := l2.dropWhile Char.isDigit
        if l3.takeWhile isSpaceC = [] then none
        else
          match stripSeq ("minute".toList) (l3.dropWhile isSpaceC) with
          | none => none
          | some _ => some (digitsToNat ds)

/-- Embeds `re.search` of `every\s+(\d+)\s+minutes?`: leftmost match wins. -/
def searchEveryMinutesNlp : List Char → Option Nat
  | [] => matchEveryMinutesNlp []
  | c :: cs =>
    match matchEveryMinutesNlp (c :: cs) with
    | some n => some n
    | none => searchEveryMinutesNlp cs

/-- Embeds the recurrence-extraction stage of `parse_nlp_task`
(src/assistant.py:220-236), the extractor ui.py's freeform entry actually
calls: the same four literal cue checks over the lowercased text, but the
only pattern rule in the `else` branch is `every\s+(\d+)\s+minutes?` —
there is no "every N hour(s)" rule.  The `recurrence`/`minutes_interval`
fields of a successful `parse_nlp_task` result are exactly this stage's
output; the subsequent `dateparser` call (external) never changes them. -/
def nlpRecurrence (text : List Char) : Option String × Option Nat :=
  let t := lowerL text
  if containsSeq ("every day".toList) t || containsSeq ("daily".toList) t then
    (some "daily", none)
  else if containsSeq ("every week".toList) t || containsSeq ("weekly".toList) t then
    (some "weekly", none)
  else if containsSeq ("every month".toList) t || containsSeq ("monthly".toList) t then
    (some "monthly", none)
  else if containsSeq ("every year".toList) t || containsSeq ("yearly".toList) t then
    (some "yearly", none)
  else
    match searchEveryMinutesNlp t with
    | some n => (some "every_x_minutes", some n)
    | none => (none, none)

theorem isLeap_iff (y : Nat) :
    isLeap y = true ↔ ((y % 4 = 0 ∧ y % 100 ≠ 0) ∨ y % 400 = 0) := by
  simp [isLeap, Bool.or_eq_true, Bool.and_eq_true, beq_iff_eq, bne_iff_ne]

theorem daysInMonth_pos (y m : Nat) (h1 : 1 ≤ m) (h2 : m ≤ 12) :
    1 ≤ daysInMonth y m := by
  interval_cases m <;> simp only [daysInMonth] <;> (try split) <;> omega

theorem daysInMonth_le (y m : Nat) (h1 : 1 ≤ m) (h2 : m ≤ 12) :
    daysInMonth y m ≤ 31 := by
  interval_cases m <;> simp only [daysInMonth] <;> (try split) <;> omega

theorem daysInMonth_notFeb (y y' m : Nat) (h1 : 1 ≤ m) (h2 : m ≤ 12) (hm : m ≠ 2) :
    daysInMonth y m = daysInMonth y' m := by
  interval_cases m <;> simp only [daysInMonth] <;> omega

theorem daysInMonth_feb (y : Nat) : 28 ≤ daysInMonth y 2 := by
  simp only [daysInMonth]; split <;> omega

theorem dBY_step (y : Nat) : dBY (y + 1) = dBY y + 365 + leapBit y := by
  by_cases h : isLeap y = true
  · have hp := (isLeap_iff y).mp h
    simp only [dBY, leapsBefore, leapBit, h, if_true]
    rcases hp with ⟨h4, h100⟩ | h400 <;> omega
  · have hp : ¬((y % 4 = 0 ∧ y % 100 ≠ 0) ∨ y % 400 = 0) := fun c => h ((isLeap_iff y).mpr c)
    push_neg at hp
    simp only [Bool.not_eq_true] at h
    simp only [dBY, leapsBefore, leapBit, h, Bool.false_eq_true, if_false]
    obtain ⟨hp1, hp2⟩ := hp
    by_cases h4 : y % 4 = 0
    · have := hp1 h4
      omega
    · omega

theorem dBM_step (y m : Nat) (h1 : 1 ≤ m) (h2 : m ≤ 11) :
    dBM y (m + 1) = dBM y m + daysInMonth y m := by
  interval_cases m <;> cases h : isLeap y <;>
    simp [dBM, daysInMonth, leapBit, h] <;> omega

theorem valid_nextDay (d : DateTime) (hv : Valid d) : Valid (nextDay d) := by
  obtain ⟨hm1, hm2, hd1, hd2, hh, hmin⟩ := hv
  unfold nextDay
  split
  · next h =>
    exact ⟨hm1, hm2, show 1 ≤ d.day + 1 by omega,
      show d.day + 1 ≤ daysInMonth d.year d.month by omega, hh, hmin⟩
  · split
    · next h h12 =>
      exact ⟨show 1 ≤ d.month + 1 by omega, show d.month + 1 ≤ 12 by omega, le_refl 1,
        show 1 ≤ daysInMonth d.year (d.month + 1) from
          daysInMonth_pos d.year (d.month + 1) (by omega) (by omega), hh, hmin⟩
    · next h h12 =>
      exact ⟨show (1 : Nat) ≤ 1 by omega, show (1 : Nat) ≤ 12 by omega, le_refl 1,
        show (1 : Nat) ≤ 31 by omega, hh, hmin⟩

theorem nextDay_time (d : DateTime) :
    (nextDay d).hour = d.hour ∧ (nextDay d).minute = d.minute := by
  unfold nextDay
  split
  · exact ⟨rfl, rfl⟩
  · split <;> exact ⟨rfl, rfl⟩

theorem nextDay_year_ge (d : DateTime) : d.year ≤ (nextDay d).year := by
  unfold nextDay
  split
  · exact le_refl _
  · split <;> simp

theorem measure_nextDay (d : DateTime) (hv : Valid d) :
    measureD (nextDay d) = measureD d + 1 := by
  obtain ⟨hm1, hm2, hd1, hd2, _, _⟩ := hv
  unfold nextDay
  split
  · next h => simp only [measureD]; omega
  · split
    · next h h12 =>
      have hde : d.day = daysInMonth d.year d.month := le_antisymm hd2 (not_lt.mp h)
      have hpos := daysInMonth_pos d.year d.month hm1 hm2
      simp only [measureD]
      rw [dBM_step d.year d.month hm1 (by omega)]
      omega
    · next h h12 =>
      have hde : d.day = daysInMonth d.year d.month := le_antisymm hd2 (not_lt.mp h)
      have hm' : d.month = 12 := by omega
      have h31 : d.day = 31 := by rw [hde, hm']; simp [daysInMonth]
      simp only [measureD, hm', dBM]
      rw [dBY_step]
      omega

theorem addDaysNat_spec (n : Nat) (d : DateTime) (hv : Valid d) :
    Valid (addDaysNat n d) ∧ measureD (addDaysNat n d) = measureD d + n ∧
      (addDaysNat n d).hour = d.hour ∧ (addDaysNat n d).minute = d.minute := by
  induction n with
  | zero => exact ⟨hv, by simp [addDaysNat], rfl, rfl⟩
  | succ n ih =>
    obtain ⟨ihv, ihm, ihh, ihmin⟩ := ih
    refine ⟨valid_nextDay _ ihv, ?_, ?_, ?_⟩
    · show measureD (nextDay (addDaysNat n d)) = _
      rw [measure_nextDay _ ihv, ihm]
      omega
    · show (nextDay (addDaysNat n d)).hour = _
      rw [(nextDay_time _).1, ihh]
    · show (nextDay (addDaysNat n d)).minute = _
      rw [(nextDay_time _).2, ihmin]

theorem valid_prevDay (d : DateTime) (hv : Valid d) : Valid (prevDay d) := by
  obtain ⟨hm1, hm2, hd1, hd2, hh, hmin⟩ := hv
  unfold prevDay
  split
  · next h =>
    exact ⟨hm1, hm2, show 1 ≤ d.day - 1 by omega,
      show d.day - 1 ≤ daysInMonth d.year d.month by omega, hh, hmin⟩
  · split
    · next h h1 =>
      exact ⟨show 1 ≤ d.month - 1 by omega, show d.month - 1 ≤ 12 by omega,
        show 1 ≤ daysInMonth d.year (d.month - 1) from
          daysInMonth_pos d.year (d.month - 1) (by omega) (by omega),
        le_refl (daysInMonth d.year (d.month - 1)), hh, hmin⟩
    · next h h1 =>
      exact ⟨show (1 : Nat) ≤ 12 by omega, show (12 : Nat) ≤ 12 by omega,
        show (1 : Nat) ≤ 31 by omega, show (31 : Nat) ≤ 31 by omega, hh, hmin⟩

theorem prevDay_time (d : DateTime) :
    (prevDay d).hour = d.hour ∧ (prevDay d).minute = d.minute := by
  unfold prevDay
  split
  · exact ⟨rfl, rfl⟩
  · split <;> exact ⟨rfl, rfl⟩

theorem prevDay_year_le (d : DateTime) : (prevDay d).year ≤ d.year := by
  unfold prevDay
  split
  · exact le_refl _
  · split
    · exact le_refl _
    · simp

theorem measure_prevDay (d : DateTime) (hv : Valid d) (hy : 1 ≤ d.year) :
    measureD (prevDay d) + 1 = measureD d := by
  obtain ⟨hm1, hm2, hd1, hd2, _, _⟩ := hv
  unfold prevDay
  split
  · next h => simp only [measureD]; omega
  · split
    · next h h1 =>
      have hpos := daysInMonth_pos d.year (d.month - 1) (by omega) (by omega)
      have hde : d.day = 1 := by omega
      simp only [measureD]
      have := dBM_step d.year (d.month - 1) (by omega) (by omega)
      rw [show d.month - 1 + 1 = d.month from by omega] at this
      omega
    · next h h1 =>
      have hde : d.day = 1 := by omega
      have hm' : d.month = 1 := by omega
      have e1 : dBY d.year = dBY (d.year - 1) + 365 + leapBit (d.year - 1) := by
        have := dBY_step (d.year - 1)
        rw [show d.year - 1 + 1 = d.year from by omega] at this
        exact this
      simp only [measureD, hm', dBM]
      omega

theorem subDaysNat_valid (n : Nat) (d : DateTime) (hv : Valid d) :
    Valid (subDaysNat n d) ∧
      (subDaysNat n d).hour = d.hour ∧ (subDaysNat n d).minute = d.minute := by
  induction n with
  | zero => exact ⟨hv, rfl, rfl⟩
  | succ n ih =>
    obtain ⟨ihv, ihh, ihmin⟩ := ih
    refine ⟨valid_prevDay _ ihv, ?_, ?_⟩
    · show (prevDay (subDaysNat n d)).hour = _
      rw [(prevDay_time _).1, ihh]
    · show (prevDay (subDaysNat n d)).minute = _
      rw [(prevDay_time _).2, ihmin]

theorem subDaysNat_measure (n : Nat) (d : DateTime) (hv : Valid d)
    (hy : 1 ≤ (subDaysNat n d).year) :
    measureD (subDaysNat n d) + n = measureD d := by
  induction n with
  | zero => simp [subDaysNat]
  | succ n ih =>
    have hstep : (subDaysNat (n + 1) d).year ≤ (subDaysNat n d).year :=
      prevDay_year_le _
    have hyn : 1 ≤ (subDaysNat n d).year := le_trans hy hstep
    have ihm := ih hyn
    have ihv := (subDaysNat_valid n d hv).1
    have := measure_prevDay (subDaysNat n d) ihv hyn
    show measureD (prevDay (subDaysNat n d)) + (n + 1) = measureD d
    omega

theorem addDaysNat_ne (n : Nat) (d : DateTime) (hv : Valid d) (hn : 1 ≤ n) :
    addDaysNat n d ≠ d := by
  intro h
  have := (addDaysNat_spec n d hv).2.1
  rw [h] at this
  omega

theorem subDaysNat_ne (n : Nat) (d : DateTime) (hv : Valid d) (hn : 1 ≤ n)
    (hy : 1 ≤ (subDaysNat n d).year) : subDaysNat n d ≠ d := by
  intro h
  have := subDaysNat_measure n d hv hy
  rw [h] at this
  omega

theorem addMonths_eq (d : DateTime) (hv : Valid d) :
    addMonths d 1 =
      if d.month = 12 then ⟨d.year + 1, 1, min d.day 31, d.hour, d.minute⟩
      else
        ⟨d.year, d.month + 1, min d.day (daysInMonth d.year (d.month + 1)),
          d.hour, d.minute⟩ := by
  obtain ⟨hm1, hm2, _, _, _, _⟩ := hv
  by_cases h : d.month = 12
  · simp only [addMonths, h, if_pos]
    norm_num [daysInMonth]
  · have e1 : d.month - 1 + 1 = d.month := by omega
    have e2 : d.month / 12 = 0 := Nat.div_eq_of_lt (by omega)
    have e3 : d.month % 12 = d.month := Nat.mod_eq_of_lt (by omega)
    simp only [addMonths, e1, e2, e3, if_neg h]
    simp

theorem addMonths_valid (d : DateTime) (hv : Valid d) : Valid (addMonths d 1) := by
  obtain ⟨hm1, hm2, hd1, hd2, hh, hmin⟩ := hv
  rw [addMonths_eq d ⟨hm1, hm2, hd1, hd2, hh, hmin⟩]
  by_cases h : d.month = 12
  · rw [if_pos h]
    exact ⟨show (1 : Nat) ≤ 1 by omega, show (1 : Nat) ≤ 12 by omega,
      show 1 ≤ min d.day 31 from le_min hd1 (by omega),
      show min d.day 31 ≤ 31 from min_le_right _ _, hh, hmin⟩
  · rw [if_neg h]
    exact ⟨show 1 ≤ d.month + 1 by omega, show d.month + 1 ≤ 12 by omega,
      show 1 ≤ min d.day (daysInMonth d.year (d.month + 1)) from
        le_min hd1 (daysInMonth_pos _ _ (by omega) (by omega)),
      show min d.day (daysInMonth d.year (d.month + 1)) ≤ _ from min_le_right _ _,
      hh, hmin⟩

theorem addMonths_ne (d : DateTime) (hv : Valid d) : addMonths d 1 ≠ d := by
  obtain ⟨hm1, hm2, hd1, hd2, hh, hmin⟩ := hv
  have hv : Valid d := ⟨hm1, hm2, hd1, hd2, hh, hmin⟩
  intro h
  have h2 := congrArg DateTime.month h
  rw [addMonths_eq d hv] at h2
  by_cases hc : d.month = 12
  · rw [if_pos hc] at h2
    simp at h2
    omega
  · rw [if_neg hc] at h2
    simp at h2

theorem addMonths_time (d : DateTime) :
    (addMonths d 1).hour = d.hour ∧ (addMonths d 1).minute = d.minute :=
  ⟨rfl, rfl⟩

theorem addYears_valid (d : DateTime) (hv : Valid d) : Valid (addYears d 1) := by
  obtain ⟨hm1, hm2, hd1, hd2, hh, hmin⟩ := hv
  simp only [addYears]
  split
  · next hfeb =>
    split
    · next hl =>
      exact ⟨show (1 : Nat) ≤ 2 by omega, show (2 : Nat) ≤ 12 by omega,
        show (1 : Nat) ≤ 29 by omega,
        show (29 : Nat) ≤ daysInMonth (d.year + 1) 2 by simp [daysInMonth, hl],
        hh, hmin⟩
    · next hl =>
      exact ⟨show (1 : Nat) ≤ 2 by omega, show (2 : Nat) ≤ 12 by omega,
        show (1 : Nat) ≤ 28 by omega,
        show (28 : Nat) ≤ daysInMonth (d.year + 1) 2 from daysInMonth_feb _, hh, hmin⟩
  · next hfeb =>
    refine ⟨hm1, hm2, hd1, ?_, hh, hmin⟩
    show d.day ≤ daysInMonth (d.year + 1) d.month
    by_cases hm : d.month = 2
    · have hne : d.day ≠ 29 := fun hc => hfeb ⟨hm, hc⟩
      have h29 : daysInMonth d.year 2 ≤ 29 := by
        simp only [daysInMonth]; split <;> omega
      have h28 : d.day ≤ 28 := by
        rw [hm] at hd2
        omega
      rw [hm]
      exact le_trans h28 (daysInMonth_feb _)
    · rw [← daysInMonth_notFeb d.year (d.year + 1) d.month hm1 hm2 hm]
      exact hd2

theorem addYears_ne (d : DateTime) : addYears d 1 ≠ d := by
  intro h
  have h2 := congrArg DateTime.year h
  simp only [addYears] at h2
  split at h2
  · split at h2 <;> simp at h2 <;> omega
  · simp at h2

theorem addYears_time (d : DateTime) :
    (addYears d 1).hour = d.hour ∧ (addYears d 1).minute = d.minute := by
  simp only [addYears]
  split
  · split <;> exact ⟨rfl, rfl⟩
  · exact ⟨rfl, rfl⟩

theorem minuteBase_valid (d : DateTime) (k : Int) (hv : Valid d) :
    Valid (minuteBase d k) := by
  obtain ⟨hm1, hm2, hd1, hd2, hh, hmin⟩ := hv
  have h0 : 0 ≤ (timeShift d k).emod 1440 := Int.emod_nonneg _ (by norm_num)
  have h1 : (timeShift d k).emod 1440 < 1440 := Int.emod_lt_of_pos _ (by norm_num)
  have hr : ((timeShift d k).emod 1440).toNat < 1440 := by omega
  exact ⟨hm1, hm2, hd1, hd2,
    show ((timeShift d k).emod 1440).toNat / 60 ≤ 23 by omega,
    show ((timeShift d k).emod 1440).toNat % 60 ≤ 59 by omega⟩

theorem addMinutes_valid (d : DateTime) (k : Int) (hv : Valid d) :
    Valid (addMinutes d k) := by
  unfold addMinutes
  split
  · exact (addDaysNat_spec _ _ (minuteBase_valid d k hv)).1
  · exact (subDaysNat_valid _ _ (minuteBase_valid d k hv)).1

theorem addMinutes_ne (d : DateTime) (k : Int) (hv : Valid d) (hk : k ≠ 0)
    (hry : 1 ≤ (addMinutes d k).year) : addMinutes d k ≠ d := by
  intro heq
  obtain ⟨hm1, hm2, hd1, hd2, hh, hmin⟩ := hv
  have hbv := minuteBase_valid d k ⟨hm1, hm2, hd1, hd2, hh, hmin⟩
  have h0 : 0 ≤ (timeShift d k).emod 1440 := Int.emod_nonneg _ (by norm_num)
  have h1 : (timeShift d k).emod 1440 < 1440 := Int.emod_lt_of_pos _ (by norm_num)
  have hdm : 1440 * ((timeShift d k).ediv 1440) + (timeShift d k).emod 1440 =
      timeShift d k := Int.ediv_add_emod _ _
  have hts : timeShift d k = ((d.hour * 60 + d.minute : Nat) : Int) + k := rfl
  have hmb : measureD (minuteBase d k) = measureD d := rfl
  unfold addMinutes at heq hry
  by_cases hq : 0 ≤ (timeShift d k).ediv 1440
  · rw [if_pos hq] at heq hry
    obtain ⟨hV, hmeas, hHour, hMin⟩ :=
      addDaysNat_spec ((timeShift d k).ediv 1440).toNat (minuteBase d k) hbv
    have e1 : ((timeShift d k).emod 1440).toNat / 60 = d.hour := by
      have : (minuteBase d k).hour = d.hour := by rw [← hHour, heq]
      exact this
    have e2 : ((timeShift d k).emod 1440).toNat % 60 = d.minute := by
      have : (minuteBase d k).minute = d.minute := by rw [← hMin, heq]
      exact this
    have er : ((timeShift d k).emod 1440).toNat = d.hour * 60 + d.minute := by omega
    have hk1440 : k = 1440 * ((timeShift d k).ediv 1440) := by omega
    have hq0 : 1 ≤ ((timeShift d k).ediv 1440).toNat := by
      rcases Int.lt_or_lt_of_ne (fun hz => hk (by rw [hk1440, hz]; ring) :
        (timeShift d k).ediv 1440 ≠ 0) with hlt | hgt
      · omega
      · omega
    have hfin : measureD (addDaysNat ((timeShift d k).ediv 1440).toNat
        (minuteBase d k)) = measureD d := by rw [heq]
    omega
  · rw [if_neg hq] at heq hry
    have hsm := subDaysNat_measure (-(timeShift d k).ediv 1440).toNat
      (minuteBase d k) hbv hry
    have hfin : measureD (subDaysNat (-(timeShift d k).ediv 1440).toNat
        (minuteBase d k)) = measureD d := by rw [heq]
    have hmpos : 1 ≤ (-(timeShift d k).ediv 1440).toNat := by omega
    omega

theorem nextDay_ne (d : DateTime) (hv : Valid d) : nextDay d ≠ d := by
  intro h
  have := measure_nextDay d hv
  rw [h] at this
  omega

theorem dig_isDigit (k : Nat) : (dig k).isDigit = true := by
  have h : k % 10 < 10 := Nat.mod_lt _ (by omega)
  unfold dig
  generalize k % 10 = j at h ⊢
  interval_cases j <;> decide

theorem dig_val (k : Nat) : digitVal (dig k) = k % 10 := by
  have h : k % 10 < 10 := Nat.mod_lt _ (by omega)
  unfold dig digitVal
  generalize k % 10 = j at h ⊢
  interval_cases j <;> decide

theorem tdg_cons_digit (m : Nat) (c : Char) (t : List Char) (acc cnt : Nat)
    (h : c.isDigit = true) :
    takeDigitsGo (m + 1) (c :: t) acc cnt =
      takeDigitsGo m t (acc * 10 + digitVal c) (cnt + 1) := by
  simp [takeDigitsGo, h]

theorem tdg_zero (l : List Char) (acc cnt : Nat) :
    takeDigitsGo 0 l acc cnt = (acc, cnt, l) := rfl

theorem td_pad2 (n : Nat) (rest : List Char) :
    takeDigitsGo 2 (pad2 n ++ rest) 0 0 = (n % 100, 2, rest) := by
  simp only [pad2, List.cons_append, List.nil_append]
  rw [show (2 : Nat) = 1 + 1 from rfl, tdg_cons_digit _ _ _ _ _ (dig_isDigit _),
    tdg_cons_digit _ _ _ _ _ (dig_isDigit _), tdg_zero, dig_val, dig_val]
  congr 1
  omega

theorem td_pad4 (n : Nat) (rest : List Char) :
    takeDigitsGo 4 (pad4 n ++ rest) 0 0 = (n % 10000, 4, rest) := by
  simp only [pad4, List.cons_append, List.nil_append]
  rw [show (4 : Nat) = 3 + 1 from rfl, tdg_cons_digit _ _ _ _ _ (dig_isDigit _),
    show (3 : Nat) = 2 + 1 from rfl, tdg_cons_digit _ _ _ _ _ (dig_isDigit _),
    show (2 : Nat) = 1 + 1 from rfl, tdg_cons_digit _ _ _ _ _ (dig_isDigit _),
    tdg_cons_digit _ _ _ _ _ (dig_isDigit _), tdg_zero,
    dig_val, dig_val, dig_val, dig_val]
  congr 1
  omega

theorem parse_format (d : DateTime) (hv : Valid d) (hy1 : 1 ≤ d.year)
    (hy2 : d.year ≤ 9999) : parseDue (formatDue d) = some d := by
  obtain ⟨hm1, hm2, hd1, hd2, hh, hmin⟩ := hv
  have hday31 : d.day ≤ 31 := le_trans hd2 (daysInMonth_le _ _ hm1 hm2)
  have hmy : d.year % 10000 = d.year := Nat.mod_eq_of_lt (by omega)
  have hmm : d.month % 100 = d.month := Nat.mod_eq_of_lt (by omega)
  have hmd : d.day % 100 = d.day := Nat.mod_eq_of_lt (by omega)
  have hmh : d.hour % 100 = d.hour := Nat.mod_eq_of_lt (by omega)
  have hmmi : d.minute % 100 = d.minute := Nat.mod_eq_of_lt (by omega)
  show parseList (String.mk (formatList d)).toList = some d
  rw [show (String.mk (formatList d)).toList = formatList d from rfl]
  simp only [formatList]
  unfold parseList
  rw [td_pad4, hmy]
  simp only
  rw [td_pad2, hmm]
  simp only
  rw [td_pad2, hmd]
  simp only
  rw [td_pad2, hmh]
  simp only
  rw [show pad2 d.minute = pad2 d.minute ++ ([] : List Char) from (List.append_nil _).symm,
    td_pad2, hmmi]
  simp [hy1, hm1, hm2, hd1, hd2, hh, hmin]

theorem parse_sound (s : String) (d : DateTime) (hp : parseDue s = some d) :
    Valid d ∧ 1 ≤ d.year := by
  unfold parseDue parseList at hp
  repeat' split at hp
  all_goals simp only [Option.some.injEq, reduceCtorEq] at hp
  rename_i hcond
  rw [← hp]
  exact ⟨⟨hcond.2.2.1, hcond.2.2.2.1, hcond.2.2.2.2.1, hcond.2.2.2.2.2.1,
    hcond.2.2.2.2.2.2.1, hcond.2.2.2.2.2.2.2⟩, hcond.2.1⟩

theorem nextDueCore_ok_ne (n : DateTime) (hv : Valid n) (r : Option String)
    (i : Option Int) (dt' : DateTime) (hc : nextDueCore n r i = .ok dt')
    (hy : 1 ≤ dt'.year) : Valid dt' ∧ dt' ≠ n := by
  unfold nextDueCore at hc
  split at hc
  · simp only [Except.ok.injEq] at hc
    subst hc
    exact ⟨(addDaysNat_spec 1 n hv).1, addDaysNat_ne 1 n hv (by omega)⟩
  · split at hc
    · simp only [Except.ok.injEq] at hc
      subst hc
      exact ⟨(addDaysNat_spec 7 n hv).1, addDaysNat_ne 7 n hv (by omega)⟩
    · split at hc
      · simp only [Except.ok.injEq] at hc
        subst hc
        exact ⟨addMonths_valid n hv, addMonths_ne n hv⟩
      · split at hc
        · simp only [Except.ok.injEq] at hc
          subst hc
          exact ⟨addYears_valid n hv, addYears_ne n⟩
        · split at hc
          · split at hc
            · exact absurd hc (by simp)
            · split at hc
              · exact absurd hc (by simp)
              · next k hk =>
                simp only [Except.ok.injEq] at hc
                subst hc
                exact ⟨addMinutes_valid n _ hv, addMinutes_ne n _ hv hk hy⟩
          · exact absurd hc (by simp)

theorem nextDue_ok_ne (n : DateTime) (hv : Valid n) (hy1 : 1 ≤ n.year)
    (hy2 : n.year ≤ 9999) (r : Option String) (i : Option Int) (s : String)
    (h : nextDue (formatDue n) r i = .ok s) : s ≠ formatDue n := by
  unfold nextDue at h
  rw [parse_format n hv hy1 hy2] at h
  dsimp only at h
  rcases hok : nextDueCore n r i with e | dt'
  · rw [hok] at h
    exact absurd h (by simp)
  · rw [hok] at h
    dsimp only at h
    split at h
    · next hcond =>
      simp only [Except.ok.injEq] at h
      obtain ⟨hvd, hne⟩ := nextDueCore_ok_ne n hv r i dt' hok hcond.1
      intro heq
      have h1 : parseDue (formatDue dt') = some dt' :=
        parse_format dt' hvd hcond.1 hcond.2
      rw [h, heq, parse_format n hv hy1 hy2] at h1
      injection h1 with hx
      exact hne hx.symm
    · simp at h

theorem nextDueCore_ok_recTruthy (dt : DateTime) (r : Option String) (i : Option Int)
    (dt' : DateTime) (h : nextDueCore dt r i = .ok dt') : recTruthy r := by
  unfold nextDueCore at h
  repeat' split at h
  all_goals simp_all [recTruthy]

theorem nextDue_ok_recTruthy (due : String) (r : Option String) (i : Option Int)
    (s : String) (h : nextDue due r i = .ok s) : recTruthy r := by
  unfold nextDue at h
  rcases hp : parseDue due with _ | dt
  · rw [hp] at h
    exact absurd h (by simp)
  · rw [hp] at h
    dsimp only at h
    rcases hcore : nextDueCore dt r i with e | dt'
    · rw [hcore] at h
      exact absurd h (by simp)
    · exact nextDueCore_ok_recTruthy dt r i dt' hcore

theorem nextDue_daily_eq (due s : String) (i : Option Int) (dt : DateTime)
    (hp : parseDue due = some dt) (h : nextDue due (some "daily") i = .ok s) :
    s = formatDue (addDaysNat 1 dt) := by
  unfold nextDue at h
  rw [hp] at h
  dsimp only at h
  have hc : nextDueCore dt (some "daily") i = .ok (addDaysNat 1 dt) := by
    simp [nextDueCore]
  rw [hc] at h
  dsimp only at h
  split at h
  · simp only [Except.ok.injEq] at h
    exact h.symm
  · exact absurd h (by simp)

theorem set_get_self (l : List Task) (i : Nat) (t : Task) (h : l[i]? = some t) :
    l.set i t = l := by
  induction l generalizing i with
  | nil => simp at h
  | cons a as ih =>
    cases i with
    | zero =>
      simp only [List.getElem?_cons_zero, Option.some.injEq] at h
      simp [List.set, h]
    | succ n =>
      simp only [List.getElem?_cons_succ] at h
      simp [List.set, ih n h]

theorem processTask_not_fired (now : String) (t : Task)
    (h : ¬(t.due ≠ "" ∧ t.done = false ∧ t.due = now)) : processTask now t = (t, []) := by
  unfold processTask
  by_cases h1 : t.due = ""
  · rw [if_pos h1]
  · rw [if_neg h1]
    have h2 : ¬(t.done = false ∧ t.due = now) := fun hc => h ⟨h1, hc⟩
    rw [if_neg h2]

theorem processTask_fired_ok (now : String) (t : Task) (s : String)
    (h1 : t.due ≠ "") (h2 : t.done = false) (h3 : t.due = now)
    (hrec : recTruthy t.recurrence ∨ intTruthy t.minutes_interval)
    (hok : nextDue t.due t.recurrence t.minutes_interval = .ok s) :
    processTask now t = ({t with due := s, done := false},
      [Event.notifyE "Task Reminder" ("Reminder: " ++ t.description),
       Event.speakE ("Reminder: " ++ t.description)]) := by
  unfold processTask
  rw [if_neg h1, if_pos ⟨h2, h3⟩, if_pos hrec, hok]

theorem processTask_fired_err (now : String) (t : Task) (e : NDErr)
    (h1 : t.due ≠ "") (h2 : t.done = false) (h3 : t.due = now)
    (hrec : recTruthy t.recurrence ∨ intTruthy t.minutes_interval)
    (herr : nextDue t.due t.recurrence t.minutes_interval = .error e) :
    processTask now t = ({t with done := true},
      [Event.notifyE "Task Reminder" ("Reminder: " ++ t.description),
       Event.speakE ("Reminder: " ++ t.description)]) := by
  unfold processTask
  rw [if_neg h1, if_pos ⟨h2, h3⟩, if_pos hrec, herr]

theorem processTask_fired_oneTime (now : String) (t : Task)
    (h1 : t.due ≠ "") (h2 : t.done = false) (h3 : t.due = now)
    (hrec : ¬(recTruthy t.recurrence ∨ intTruthy t.minutes_interval)) :
    processTask now t = ({t with done := true},
      [Event.notifyE "Task Reminder" ("Reminder: " ++ t.description),
       Event.speakE ("Reminder: " ++ t.description)]) := by
  unfold processTask
  rw [if_neg h1, if_pos ⟨h2, h3⟩, if_neg hrec]

theorem processTask_silent (n : DateTime) (hv : Valid n) (hy1 : 1 ≤ n.year)
    (hy2 : n.year ≤ 9999) (now : String) (hnow : now = formatDue n) (t : Task) :
    (processTask now (processTask now t).1).2 = [] := by
  by_cases hf : t.due ≠ "" ∧ t.done = false ∧ t.due = now
  · obtain ⟨h1, h2, h3⟩ := hf
    by_cases hrec : recTruthy t.recurrence ∨ intTruthy t.minutes_interval
    · rcases hok : nextDue t.due t.recurrence t.minutes_interval with e | s
      · rw [processTask_fired_err now t e h1 h2 h3 hrec hok]
        rw [processTask_not_fired]
        rintro ⟨_, hdd, _⟩
        exact absurd hdd (by simp)
      · have hs_ne : s ≠ now := by
          rw [h3, hnow] at hok
          rw [hnow]
          exact nextDue_ok_ne n hv hy1 hy2 t.recurrence t.minutes_interval s hok
        rw [processTask_fired_ok now t s h1 h2 h3 hrec hok]
        rw [processTask_not_fired]
        rintro ⟨_, _, hdd⟩
        exact hs_ne hdd
    · rw [processTask_fired_oneTime now t h1 h2 h3 hrec]
      rw [processTask_not_fired]
      rintro ⟨_, hdd, _⟩
      exact absurd hdd (by simp)
  · rw [processTask_not_fired now t hf]
    show (processTask now t).2 = []
    rw [processTask_not_fired now t hf]

theorem checkTasks_silent (n : DateTime) (hv : Valid n) (hy1 : 1 ≤ n.year)
    (hy2 : n.year ≤ 9999) (now : String) (hnow : now = formatDue n)
    (tasks : List Task) : (checkTasks now (checkTasks now tasks).1).2 = [] := by
  unfold checkTasks
  simp only [List.map_map]
  induction tasks with
  | nil => rfl
  | cons a as ih =>
    simp only [List.map_cons, List.flatten_cons, List.append_eq_nil]
    constructor
    · exact processTask_silent n hv hy1 hy2 now hnow a
    · simpa using ih

theorem isLeap_succ_false (y : Nat) (h : isLeap y = true) : isLeap (y + 1) = false := by
  have hp := (isLeap_iff y).mp h
  cases hq : isLeap (y + 1)
  · rfl
  · exfalso
    have hp2 := (isLeap_iff (y + 1)).mp hq
    omega

/-- C4: for every valid minute-precision timestamp, `advance` with
recurrence = monthly returns the timestamp one calendar month later with the
same hour and minute (month incremented, or January of the next year from
December), where a day-of-month that overflows the target month is clamped
to the last valid day of that month; in particular
`advance("2025-01-31 09:00", monthly) = "2025-02-28 09:00"`. -/
theorem monthly_advance_clamp :
    (∀ (due : String) (dt : DateTime) (i : Option Int), parseDue due = some dt →
      dt.month ≤ 11 → dt.year ≤ 9999 →
      nextDue due (some "monthly") i = .ok (formatDue ⟨dt.year, dt.month + 1,
        if daysInMonth dt.year (dt.month + 1) < dt.day then daysInMonth dt.year (dt.month + 1)
        else dt.day, dt.hour, dt.minute⟩)) ∧
    (∀ (due : String) (dt : DateTime) (i : Option Int), parseDue due = some dt →
      dt.month = 12 → dt.year + 1 ≤ 9999 →
      nextDue due (some "monthly") i =
        .ok (formatDue ⟨dt.year + 1, 1, dt.day, dt.hour, dt.minute⟩)) ∧
    nextDue "2025-01-31 09:00" (some "monthly") none = .ok "2025-02-28 09:00" := by
  refine ⟨?_, ?_, rfl⟩
  · intro due dt i hp h11 h9999
    obtain ⟨hvd, hy1⟩ := parse_sound due dt hp
    unfold nextDue
    rw [hp]
    dsimp only
    have hc : nextDueCore dt (some "monthly") i = .ok (addMonths dt 1) := by
      simp [nextDueCore]
    rw [hc]
    dsimp only
    rw [addMonths_eq dt hvd, if_neg (show ¬dt.month = 12 by omega)]
    rw [if_pos ⟨hy1, h9999⟩]
    have hday : min dt.day (daysInMonth dt.year (dt.month + 1)) =
        if daysInMonth dt.year (dt.month + 1) < dt.day then
          daysInMonth dt.year (dt.month + 1)
        else dt.day := by
      split <;> omega
    rw [hday]
  · intro due dt i hp h12 h9999
    obtain ⟨hvd, hy1⟩ := parse_sound due dt hp
    have hd31 : dt.day ≤ 31 := by
      have := hvd.2.2.2.1
      rw [h12] at this
      simpa [daysInMonth] using this
    unfold nextDue
    rw [hp]
    dsimp only
    have hc : nextDueCore dt (some "monthly") i = .ok (addMonths dt 1) := by
      simp [nextDueCore]
    rw [hc]
    dsimp only
    rw [addMonths_eq dt hvd, if_pos h12]
    rw [if_pos ⟨show 1 ≤ dt.year + 1 by omega, h9999⟩]
    have hday : min dt.day 31 = dt.day := by omega
    rw [hday]

/-- C5: for every valid minute-precision timestamp, `advance` with
recurrence = yearly returns the timestamp one calendar year later with the
same month, day, hour and minute, except that when the origin is
February 29 (whose target year, one year on, is never a leap year) the
result is clamped to February 28; in particular
`advance("2024-02-29 08:00", yearly) = "2025-02-28 08:00"`. -/
theorem yearly_advance_leap_clamp :
    (∀ (due : String) (dt : DateTime) (i : Option Int), parseDue due = some dt →
      dt.year + 1 ≤ 9999 → ¬(dt.month = 2 ∧ dt.day = 29) →
      nextDue due (some "yearly") i =
        .ok (formatDue ⟨dt.year + 1, dt.month, dt.day, dt.hour, dt.minute⟩)) ∧
    (∀ (due : String) (dt : DateTime) (i : Option Int), parseDue due = some dt →
      dt.year + 1 ≤ 9999 → dt.month = 2 → dt.day = 29 →
      isLeap (dt.year + 1) = false ∧
      nextDue due (some "yearly") i =
        .ok (formatDue ⟨dt.year + 1, 2, 28, dt.hour, dt.minute⟩)) ∧
    nextDue "2024-02-29 08:00" (some "yearly") none = .ok "2025-02-28 08:00" := by
  refine ⟨?_, ?_, rfl⟩
  · intro due dt i hp h9999 hfeb
    obtain ⟨hvd, hy1⟩ := parse_sound due dt hp
    unfold nextDue
    rw [hp]
    dsimp only
    have hc : nextDueCore dt (some "yearly") i = .ok (addYears dt 1) := by
      simp [nextDueCore]
    rw [hc]
    dsimp only
    rw [show addYears dt 1 =
        (⟨dt.year + 1, dt.month, dt.day, dt.hour, dt.minute⟩ : DateTime) from by
      simp only [addYears]
      rw [if_neg hfeb]]
    rw [if_pos ⟨show 1 ≤ dt.year + 1 by omega, h9999⟩]
  · intro due dt i hp h9999 hm2 hd29
    obtain ⟨hvd, hy1⟩ := parse_sound due dt hp
    have hleap : isLeap dt.year = true := by
      have hdim := hvd.2.2.2.1
      rw [hm2, hd29] at hdim
      by_contra hq
      simp only [Bool.not_eq_true] at hq
      simp [daysInMonth, hq] at hdim
    have hnl : isLeap (dt.year + 1) = false := isLeap_succ_false dt.year hleap
    refine ⟨hnl, ?_⟩
    unfold nextDue
    rw [hp]
    dsimp only
    have hc : nextDueCore dt (some "yearly") i = .ok (addYears dt 1) := by
      simp [nextDueCore]
    rw [hc]
    dsimp only
    rw [show addYears dt 1 = (⟨dt.year + 1, 2, 28, dt.hour, dt.minute⟩ : DateTime) from by
      simp only [addYears]
      rw [if_pos ⟨hm2, hd29⟩, hnl]
      simp]
    rw [if_pos ⟨show 1 ≤ dt.year + 1 by omega, h9999⟩]

/-- C10: for every valid minute-precision input timestamp, `advance` with
recurrence daily, weekly, monthly or yearly returns a timestamp whose hour
and minute equal those of the input: the clamping in the monthly and yearly
advances changes only the date part, never the wall-clock time. -/
theorem advance_preserves_time_of_day (dt : DateTime) (i : Option Int) (hv : Valid dt) :
    (∃ d1, nextDueCore dt (some "daily") i = .ok d1 ∧
      d1.hour = dt.hour ∧ d1.minute = dt.minute) ∧
    (∃ d7, nextDueCore dt (some "weekly") i = .ok d7 ∧
      d7.hour = dt.hour ∧ d7.minute = dt.minute) ∧
    (∃ dm, nextDueCore dt (some "monthly") i = .ok dm ∧
      dm.hour = dt.hour ∧ dm.minute = dt.minute) ∧
    (∃ dy, nextDueCore dt (some "yearly") i = .ok dy ∧
      dy.hour = dt.hour ∧ dy.minute = dt.minute) := by
  refine ⟨⟨addDaysNat 1 dt, by simp [nextDueCore], ?_, ?_⟩,
    ⟨addDaysNat 7 dt, by simp [nextDueCore], ?_, ?_⟩,
    ⟨addMonths dt 1, by simp [nextDueCore], (addMonths_time dt).1, (addMonths_time dt).2⟩,
    ⟨addYears dt 1, by simp [nextDueCore], (addYears_time dt).1, (addYears_time dt).2⟩⟩
  · exact (addDaysNat_spec 1 dt hv).2.2.1
  · exact (addDaysNat_spec 1 dt hv).2.2.2
  · exact (addDaysNat_spec 7 dt hv).2.2.1
  · exact (addDaysNat_spec 7 dt hv).2.2.2

/-- Witness for C4: the general monthly theorem applied at a concrete input,
January 31 advancing into February with the day clamped to 28. -/
theorem monthly_advance_clamp_witness :
    nextDue "2025-01-31 09:00" (some "monthly") none =
      .ok (formatDue ⟨2025, 2, if daysInMonth 2025 2 < 31 then daysInMonth 2025 2 else 31,
        9, 0⟩) :=
  monthly_advance_clamp.1 "2025-01-31 09:00" ⟨2025, 1, 31, 9, 0⟩ none rfl
    (by decide) (by decide)

/-- Witness for C5: the yearly theorem applied at the concrete leap-day input. -/
theorem yearly_advance_leap_clamp_witness :
    isLeap 2025 = false ∧
    nextDue "2024-02-29 08:00" (some "yearly") none =
      .ok (formatDue ⟨2025, 2, 28, 8, 0⟩) :=
  yearly_advance_leap_clamp.2.1 "2024-02-29 08:00" ⟨2024, 2, 29, 8, 0⟩ none rfl
    (by decide) rfl rfl

/-- Witness for C10: the time-of-day preservation theorem at a concrete
valid timestamp. -/
theorem advance_preserves_time_of_day_witness :
    ∃ dm, nextDueCore ⟨2025, 1, 31, 9, 30⟩ (some "monthly") none = .ok dm ∧
      dm.hour = 9 ∧ dm.minute = 30 :=
  (advance_preserves_time_of_day ⟨2025, 1, 31, 9, 30⟩ none (by decide)).2.2.1

/-- C6 counterexample: the claim says `advance` fails with `MissingInterval`
whenever recurrence is every_x_minutes and the interval is non-positive, but
the source's `if not minutes_interval` truthiness test accepts the negative
interval `-5` and moves the due time five minutes backwards. -/
theorem nextDue_negative_interval_counterexample :
    nextDue "2025-01-01 10:00" (some "every_x_minutes") (some (-5)) =
      .ok "2025-01-01 09:55" ∧
    nextDue "2025-01-01 10:00" (some "every_x_minutes") (some (-5)) ≠
      .error .missingInterval := by
  refine ⟨rfl, ?_⟩
  intro h
  rw [show nextDue "2025-01-01 10:00" (some "every_x_minutes") (some (-5)) =
    .ok "2025-01-01 09:55" from rfl] at h
  exact absurd h (by simp)

/-- C6 (amended): for every parseable due timestamp, `advance` fails with
`InvalidRecurrence` exactly when the recurrence is none of the five known
kinds, fails with `MissingInterval` exactly when recurrence is
every_x_minutes and the interval is absent or zero (a negative interval is
truthy in Python and is accepted), and for every_x_minutes with a non-zero
interval N whose result is representable it returns the input plus N
minutes. -/
theorem advance_error_characterization (due : String) (dt : DateTime)
    (r : Option String) (i : Option Int) (hp : parseDue due = some dt) :
    (nextDue due r i = .error .invalidRecurrence ↔
      (r ≠ some "daily" ∧ r ≠ some "weekly" ∧ r ≠ some "monthly" ∧
        r ≠ some "yearly" ∧ r ≠ some "every_x_minutes")) ∧
    (nextDue due r i = .error .missingInterval ↔
      (r = some "every_x_minutes" ∧ (i = none ∨ i = some 0))) ∧
    (∀ k : Int, r = some "every_x_minutes" → i = some k → k ≠ 0 →
      1 ≤ (addMinutes dt k).year → (addMinutes dt k).year ≤ 9999 →
      nextDue due r i = .ok (formatDue (addMinutes dt k))) := by
  have hnd : nextDue due r i =
      (match nextDueCore dt r i with
        | .error e => Except.error e
        | .ok dt' =>
          if 1 ≤ dt'.year ∧ dt'.year ≤ 9999 then Except.ok (formatDue dt')
          else Except.error NDErr.outOfRange) := by
    unfold nextDue
    rw [hp]
  by_cases h1 : r = some "daily"
  · have hcore : nextDueCore dt r i = .ok (addDaysNat 1 dt) := by
      simp [nextDueCore, h1]
    rw [hnd, hcore]
    dsimp only
    refine ⟨?_, ?_, ?_⟩
    · constructor
      · intro hc
        split at hc <;> simp_all
      · intro hrhs
        exact absurd h1 hrhs.1
    · constructor
      · intro hc
        split at hc <;> simp_all
      · rintro ⟨hx, _⟩
        rw [h1] at hx
        simp at hx
    · intro k hr
      rw [h1] at hr
      simp at hr
  · by_cases h2 : r = some "weekly"
    · have hcore : nextDueCore dt r i = .ok (addDaysNat 7 dt) := by
        simp [nextDueCore, h2]
      rw [hnd, hcore]
      dsimp only
      refine ⟨?_, ?_, ?_⟩
      · constructor
        · intro hc
          split at hc <;> simp_all
        · intro hrhs
          exact absurd h2 hrhs.2.1
      · constructor
        · intro hc
          split at hc <;> simp_all
        · rintro ⟨hx, _⟩
          rw [h2] at hx
          simp at hx
      · intro k hr
        rw [h2] at hr
        simp at hr
    · by_cases h3 : r = some "monthly"
      · have hcore : nextDueCore dt r i = .ok (addMonths dt 1) := by
          simp [nextDueCore, h3]
        rw [hnd, hcore]
        dsimp only
        refine ⟨?_, ?_, ?_⟩
        · constructor
          · intro hc
            split at hc <;> simp_all
          · intro hrhs
            exact absurd h3 hrhs.2.2.1
        · constructor
          · intro hc
            split at hc <;> simp_all
          · rintro ⟨hx, _⟩
            rw [h3] at hx
            simp at hx
        · intro k hr
          rw [h3] at hr
          simp at hr
      · by_cases h4 : r = some "yearly"
        · have hcore : nextDueCore dt r i = .ok (addYears dt 1) := by
            simp [nextDueCore, h4]
          rw [hnd, hcore]
          dsimp only
          refine ⟨?_, ?_, ?_⟩
          · constructor
            · intro hc
              split at hc <;> simp_all
            · intro hrhs
              exact absurd h4 hrhs.2.2.2.1
          · constructor
            · intro hc
              split at hc <;> simp_all
            · rintro ⟨hx, _⟩
              rw [h4] at hx
              simp at hx
          · intro k hr
            rw [h4] at hr
            simp at hr
        · by_cases h5 : r = some "every_x_minutes"
          · rcases i with _ | k
            · have hcore : nextDueCore dt r none = .error .missingInterval := by
                simp [nextDueCore, h1, h2, h3, h4, h5]
              rw [hnd, hcore]
              dsimp only
              refine ⟨?_, ?_, ?_⟩
              · simp [h5]
              · simp [h5]
              · intro k _ hik
                simp at hik
            · by_cases hk0 : k = 0
              · have hcore : nextDueCore dt r (some k) = .error .missingInterval := by
                  simp [nextDueCore, h1, h2, h3, h4, h5, hk0]
                rw [hnd, hcore]
                dsimp only
                refine ⟨?_, ?_, ?_⟩
                · simp [h5]
                · simp [h5, hk0]
                · intro k' _ hik hk'
                  rw [hk0] at hik
                  injection hik with he
                  exact absurd he.symm hk'
              · have hcore : nextDueCore dt r (some k) = .ok (addMinutes dt k) := by
                  simp [nextDueCore, h1, h2, h3, h4, h5, hk0]
                rw [hnd, hcore]
                dsimp only
                refine ⟨?_, ?_, ?_⟩
                · constructor
                  · intro hc
                    split at hc <;> simp_all
                  · intro hrhs
                    exact absurd h5 hrhs.2.2.2.2
                · constructor
                  · intro hc
                    split at hc <;> simp_all
                  · rintro ⟨_, hor⟩
                    rcases hor with hx | hx <;> simp_all
                · intro k' hr hik hk' hy1 hy2
                  injection hik with he
                  subst he
                  rw [if_pos ⟨hy1, hy2⟩]
          · have hcore : nextDueCore dt r i = .error .invalidRecurrence := by
              simp [nextDueCore, h1, h2, h3, h4, h5]
            rw [hnd, hcore]
            dsimp only
            refine ⟨?_, ?_, ?_⟩
            · simp [h1, h2, h3, h4, h5]
            · simp [h5]
            · intro k hr
              exact absurd hr h5

/-- Witness for C6's amended theorem: at a concrete parseable timestamp with
the unknown recurrence kind "hourly", `advance` fails with
`InvalidRecurrence`. -/
theorem advance_error_characterization_witness :
    nextDue "2025-06-01 10:00" (some "hourly") none = .error .invalidRecurrence ↔
      (some "hourly" ≠ some "daily" ∧ some "hourly" ≠ some "weekly" ∧
        some "hourly" ≠ some "monthly" ∧ some "hourly" ≠ some "yearly" ∧
        some "hourly" ≠ some "every_x_minutes") :=
  (advance_error_characterization "2025-06-01 10:00" ⟨2025, 6, 1, 10, 0⟩
    (some "hourly") none rfl).1

theorem get_set_self (l : List Task) (i : Nat) (t a : Task) (h : l[i]? = some t) :
    (l.set i a)[i]? = some a := by
  induction l generalizing i with
  | nil => simp at h
  | cons x xs ih =>
    cases i with
    | zero => simp [List.set]
    | succ n =>
      simp only [List.getElem?_cons_succ] at h
      simp only [List.set, List.getElem?_cons_succ]
      exact ih n h

/-- C7: on a pending non-recurring task, `mark_done(i, True)` sets only the
done flag (due, description, recurrence and all other tasks unchanged), and
a following `mark_done(i, False)` restores the original list exactly. -/
theorem markDone_nonrecurring_roundtrip (tasks : List Task) (i : Nat) (t : Task)
    (hget : tasks[i]? = some t) (hrec : t.recurrence = none) (hpend : t.done = false) :
    markDone tasks i true =
      .ok (tasks.set i {t with done := true},
        [.speakE ("Task completed: " ++ t.description)]) ∧
    markDone (tasks.set i {t with done := true}) i false =
      .ok (tasks, [.speakE ("Task reopened: " ++ t.description)]) := by
  constructor
  · unfold markDone
    rw [hget]
    dsimp only
    rw [if_neg (by rw [hrec]; rintro ⟨_, hr⟩; exact hr)]
    rfl
  · unfold markDone
    rw [get_set_self tasks i t _ hget]
    dsimp only
    rw [if_neg (by rintro ⟨hd, _⟩; exact absurd hd (by simp))]
    have he : ({{t with done := true} with done := false} : Task) = t := by
      cases t
      simp_all
    rw [List.set_set, he, set_get_self tasks i t hget]
    rfl

/-- Witness for C7: the round trip evaluated on a concrete one-task list. -/
theorem markDone_nonrecurring_roundtrip_witness :
    markDone [⟨"pay rent", "2025-03-01 09:00", false, none, none⟩] 0 true =
      .ok ([⟨"pay rent", "2025-03-01 09:00", true, none, none⟩],
        [.speakE "Task completed: pay rent"]) ∧
    markDone [⟨"pay rent", "2025-03-01 09:00", true, none, none⟩] 0 false =
      .ok ([⟨"pay rent", "2025-03-01 09:00", false, none, none⟩],
        [.speakE "Task reopened: pay rent"]) :=
  markDone_nonrecurring_roundtrip [⟨"pay rent", "2025-03-01 09:00", false, none, none⟩]
    0 ⟨"pay rent", "2025-03-01 09:00", false, none, none⟩ rfl rfl rfl

/-- C8: `add_task` rejects a blank description, an unparseable due string, an
unknown recurrence, and (for every_x_minutes) a missing or non-positive
interval, in that order; every failure raises before the append/save, so the
stored list is unchanged; on success exactly one new task with done=false is
appended at the end. -/
theorem addTask_validation (description due : String) (r : Option String)
    (i : Option Int) (tasks : List Task) :
    ((pyStrip description) = "" →
      addTask description due r i tasks = .error .emptyDescription) ∧
    ((pyStrip description) ≠ "" → validateDueStr due = false →
      addTask description due r i tasks = .error .invalidDueFormat) ∧
    ((pyStrip description) ≠ "" → validateDueStr due = true → recAllowed r = false →
      addTask description due r i tasks = .error .invalidRecurrence) ∧
    ((pyStrip description) ≠ "" → validateDueStr due = true → recAllowed r = true →
      r = some "every_x_minutes" → intervalBad i = true →
      addTask description due r i tasks = .error .invalidInterval) ∧
    ((pyStrip description) ≠ "" → validateDueStr due = true → recAllowed r = true →
      ¬(r = some "every_x_minutes" ∧ intervalBad i = true) →
      addTask description due r i tasks = .ok (tasks ++
        [⟨(pyStrip description), due, false, r,
          if r = some "every_x_minutes" then i else none⟩])) := by
  refine ⟨?_, ?_, ?_, ?_, ?_⟩
  · intro h
    unfold addTask
    rw [if_pos h]
  · intro h1 h2
    unfold addTask
    rw [if_neg h1, if_pos h2]
  · intro h1 h2 h3
    unfold addTask
    rw [if_neg h1, if_neg (by simp [h2]), if_pos h3]
  · intro h1 h2 h3 h4 h5
    unfold addTask
    rw [if_neg h1, if_neg (by simp [h2]), if_neg (by simp [h3]), if_pos ⟨h4, h5⟩]
  · intro h1 h2 h3 h45
    unfold addTask
    rw [if_neg h1, if_neg (by simp [h2]), if_neg (by simp [h3]), if_neg h45]

/-- Witness for C8: the blank-description and bad-due failures, and a
successful append, each at concrete inputs via the validation theorem. -/
theorem addTask_validation_witness :
    addTask "" "2025-01-01 10:00" none none [] = .error .emptyDescription ∧
    addTask "x" "not-a-date" none none [] = .error .invalidDueFormat ∧
    addTask "x" "2025-01-01 10:00" none none [] =
      .ok [⟨pyStrip "x", "2025-01-01 10:00", false, none,
        if (none : Option String) = some "every_x_minutes" then none else none⟩] :=
  ⟨(addTask_validation "" "2025-01-01 10:00" none none []).1 rfl,
   (addTask_validation "x" "not-a-date" none none []).2.1 (by decide) rfl,
   (addTask_validation "x" "2025-01-01 10:00" none none []).2.2.2.2 (by decide) rfl rfl
     (by rintro ⟨hx, _⟩; exact absurd hx (by simp))⟩

/-- C2: when recurrence-advance succeeds, `mark_done(i, True)` reschedules
the task: `due` becomes the advance result and `done` stays false (the task
is never closed on the success path); for a daily task the new due string is
the old one advanced by exactly one day, so repeated completion keeps
advancing day by day with `done` false after every call. -/
theorem markDone_recurring_success (tasks : List Task) (i : Nat) (t : Task)
    (s : String) (hget : tasks[i]? = some t)
    (hok : nextDue t.due t.recurrence t.minutes_interval = .ok s) :
    markDone tasks i true =
      .ok (tasks.set i {t with due := s, done := false},
        [.speakE ("Task rescheduled for " ++ s)]) ∧
    (∀ dt : DateTime, t.recurrence = some "daily" → parseDue t.due = some dt →
      s = formatDue (addDaysNat 1 dt)) := by
  constructor
  · unfold markDone
    rw [hget]
    dsimp only
    rw [if_pos ⟨rfl, nextDue_ok_recTruthy _ _ _ _ hok⟩, hok]
  · intro dt hr hp
    rw [hr] at hok
    exact nextDue_daily_eq t.due s t.minutes_interval dt hp hok

/-- Witness for C2: completing a concrete daily task reschedules it one day
later with done still false. -/
theorem markDone_recurring_success_witness :
    markDone [⟨"water plants", "2025-03-10 08:00", false, some "daily", none⟩] 0 true =
      .ok ([⟨"water plants", "2025-03-11 08:00", false, some "daily", none⟩],
        [.speakE ("Task rescheduled for " ++ "2025-03-11 08:00")]) ∧
    "2025-03-11 08:00" = formatDue (addDaysNat 1 ⟨2025, 3, 10, 8, 0⟩) := by
  have h := markDone_recurring_success
    [⟨"water plants", "2025-03-10 08:00", false, some "daily", none⟩] 0
    ⟨"water plants", "2025-03-10 08:00", false, some "daily", none⟩
    "2025-03-11 08:00" rfl rfl
  exact ⟨h.1, h.2 ⟨2025, 3, 10, 8, 0⟩ rfl rfl⟩

/-- C3: whenever recurrence-advance fails, both completion via `mark_done`
and a scheduler firing force-close the task: `done` becomes true, `due` and
everything else are unchanged, the task stays in the list, and the failure
surfaces as a spoken warning while the call still returns successfully. -/
theorem recurrence_failure_force_close :
    (∀ (tasks : List Task) (i : Nat) (t : Task) (e : NDErr),
      tasks[i]? = some t → recTruthy t.recurrence →
      nextDue t.due t.recurrence t.minutes_interval = .error e →
      markDone tasks i true =
        .ok (tasks.set i {t with done := true},
          [.speakE ("Error rescheduling task; marked done. (" ++ errMsg e ++ ")")])) ∧
    (∀ (now : String) (t : Task) (e : NDErr),
      t.due ≠ "" → t.done = false → t.due = now →
      (recTruthy t.recurrence ∨ intTruthy t.minutes_interval) →
      nextDue t.due t.recurrence t.minutes_interval = .error e →
      processTask now t = ({t with done := true},
        [Event.notifyE "Task Reminder" ("Reminder: " ++ t.description),
          Event.speakE ("Reminder: " ++ t.description)])) := by
  constructor
  · intro tasks i t e hget hrec herr
    unfold markDone
    rw [hget]
    dsimp only
    rw [if_pos ⟨rfl, hrec⟩, herr]
  · intro now t e h1 h2 h3 hrec herr
    exact processTask_fired_err now t e h1 h2 h3 hrec herr

/-- Witness for C3: a task with the unknown recurrence kind "hourly" is
force-closed (due unchanged) both by `mark_done` and by a scheduler firing,
with the warning spoken and no error returned. -/
theorem recurrence_failure_force_close_witness :
    markDone [⟨"standup", "2025-03-10 09:00", false, some "hourly", none⟩] 0 true =
      .ok ([⟨"standup", "2025-03-10 09:00", true, some "hourly", none⟩],
        [.speakE ("Error rescheduling task; marked done. (" ++
          errMsg .invalidRecurrence ++ ")")]) ∧
    processTask "2025-03-10 09:00"
        ⟨"standup", "2025-03-10 09:00", false, some "hourly", none⟩ =
      (⟨"standup", "2025-03-10 09:00", true, some "hourly", none⟩,
        [Event.notifyE "Task Reminder" ("Reminder: " ++ "standup"),
          Event.speakE ("Reminder: " ++ "standup")]) :=
  ⟨recurrence_failure_force_close.1
      [⟨"standup", "2025-03-10 09:00", false, some "hourly", none⟩] 0
      ⟨"standup", "2025-03-10 09:00", false, some "hourly", none⟩
      .invalidRecurrence rfl (by decide) rfl,
    recurrence_failure_force_close.2 "2025-03-10 09:00"
      ⟨"standup", "2025-03-10 09:00", false, some "hourly", none⟩
      .invalidRecurrence (by decide) rfl rfl (Or.inl (by decide)) rfl⟩

/-- Supporting fact: on text whose lowercase form contains none of the
day/week/month/year cues and does not match "every N minute(s)", but matches
"every N hour(s)" with value N, the `extract_recurrence` scan (the
implementation of the documented order, reachable only through the otherwise
uncalled `parse_task`) returns every_x_minutes with interval N*60. -/
theorem extract_hours_rule (text : List Char) (N : Nat) (hpos : 0 < N)
    (h1 : containsSeq ("every day".toList) (lowerL text) = false)
    (h2 : containsSeq ("daily".toList) (lowerL text) = false)
    (h3 : containsSeq ("every week".toList) (lowerL text) = false)
    (h4 : containsSeq ("weekly".toList) (lowerL text) = false)
    (h5 : containsSeq ("every month".toList) (lowerL text) = false)
    (h6 : containsSeq ("monthly".toList) (lowerL text) = false)
    (h7 : containsSeq ("every year".toList) (lowerL text) = false)
    (h8 : containsSeq ("yearly".toList) (lowerL text) = false)
    (hmin : searchEvery ("minute".toList) (lowerL text) = none)
    (hhour : searchEvery ("hour".toList) (lowerL text) = some N) :
    extractRecurrence text = (some "every_x_minutes", some (N * 60)) := by
  simp only [extractRecurrence]
  simp_all

/-- Instance of the supporting fact at "call dad every 2 hours":
`extract_recurrence` extracts every_x_minutes with interval 120. -/
theorem extract_hours_rule_example :
    extractRecurrence "call dad every 2 hours".toList =
      (some "every_x_minutes", some (2 * 60)) :=
  extract_hours_rule "call dad every 2 hours".toList 2 (by decide)
    rfl rfl rfl rfl rfl rfl rfl rfl rfl rfl

/-- C9 (code bug): the natural-language entry point the UI calls,
`parse_nlp_task`, has no "every N hour(s)" rule — its recurrence stage
returns no recurrence on "pay bills tomorrow at 9am every 2 hours" (a text
with an inferable due, the pattern "every 2 hours", and no earlier cue) —
while the documented scan order, implemented in this repository by
`extract_recurrence`, returns every_x_minutes with interval 2*60 exactly as
the claim states.  The live code thus contradicts the claim and the spec's
section 4.3. -/
theorem nlp_hours_no_recurrence :
    nlpRecurrence "pay bills tomorrow at 9am every 2 hours".toList = (none, none) ∧
    extractRecurrence "pay bills tomorrow at 9am every 2 hours".toList =
      (some "every_x_minutes", some (2 * 60)) :=
  ⟨rfl, rfl⟩

/-- C1: over a poll cycle at the minute-truncated timestamp `now`, a task
with a non-empty due string fires (producing exactly one notification and
one voice call built from its description) iff its done flag is false and
its due string equals `now` exactly; a fired task either gets its due
advanced (to a string different from `now`) with done reset to false, or its
done flag set to true with due unchanged; consequently a second poll cycle
at the same minute fires nothing on the whole saved list. -/
theorem scheduler_fire_iff_no_refire (n : DateTime) (hv : Valid n) (hy1 : 1 ≤ n.year)
    (hy2 : n.year ≤ 9999) (now : String) (hnow : now = formatDue n) :
    (∀ t : Task, t.due ≠ "" →
      ((processTask now t).2 ≠ [] ↔ (t.done = false ∧ t.due = now)) ∧
      ((t.done = false ∧ t.due = now) →
        (processTask now t).2 =
          [Event.notifyE "Task Reminder" ("Reminder: " ++ t.description),
            Event.speakE ("Reminder: " ++ t.description)] ∧
        ((∃ s, nextDue t.due t.recurrence t.minutes_interval = Except.ok s ∧
            (processTask now t).1 = {t with due := s, done := false} ∧ s ≠ now) ∨
          (processTask now t).1 = {t with done := true}))) ∧
    (∀ tasks : List Task, (checkTasks now (checkTasks now tasks).1).2 = []) := by
  constructor
  · intro t h1
    constructor
    · constructor
      · intro hne
        by_contra hc
        rw [processTask_not_fired now t (fun hx => hc hx.2)] at hne
        exact hne rfl
      · rintro ⟨h2, h3⟩
        by_cases hrec : recTruthy t.recurrence ∨ intTruthy t.minutes_interval
        · rcases hok : nextDue t.due t.recurrence t.minutes_interval with e | s
          · rw [processTask_fired_err now t e h1 h2 h3 hrec hok]
            simp
          · rw [processTask_fired_ok now t s h1 h2 h3 hrec hok]
            simp
        · rw [processTask_fired_oneTime now t h1 h2 h3 hrec]
          simp
    · rintro ⟨h2, h3⟩
      by_cases hrec : recTruthy t.recurrence ∨ intTruthy t.minutes_interval
      · rcases hok : nextDue t.due t.recurrence t.minutes_interval with e | s
        · rw [processTask_fired_err now t e h1 h2 h3 hrec hok]
          exact ⟨rfl, Or.inr rfl⟩
        · have hs : s ≠ now := by
            rw [h3, hnow] at hok
            rw [hnow]
            exact nextDue_ok_ne n hv hy1 hy2 t.recurrence t.minutes_interval s hok
          rw [processTask_fired_ok now t s h1 h2 h3 hrec hok]
          exact ⟨rfl, Or.inl ⟨s, rfl, rfl, hs⟩⟩
      · rw [processTask_fired_oneTime now t h1 h2 h3 hrec]
        exact ⟨rfl, Or.inr rfl⟩
  · exact checkTasks_silent n hv hy1 hy2 now hnow

/-- Witness for C1: a concrete due daily task fires at its minute, and the
second poll cycle over the saved one-task list emits no events. -/
theorem scheduler_fire_iff_no_refire_witness :
    (((processTask "2025-01-02 09:30"
        ⟨"gym", "2025-01-02 09:30", false, some "daily", none⟩).2 ≠ []) ↔
      ((⟨"gym", "2025-01-02 09:30", false, some "daily", none⟩ : Task).done = false ∧
        (⟨"gym", "2025-01-02 09:30", false, some "daily", none⟩ : Task).due =
          "2025-01-02 09:30")) ∧
    (checkTasks "2025-01-02 09:30" (checkTasks "2025-01-02 09:30"
      [⟨"gym", "2025-01-02 09:30", false, some "daily", none⟩]).1).2 = [] := by
  have h := scheduler_fire_iff_no_refire ⟨2025, 1, 2, 9, 30⟩ (by decide) (by decide)
    (by decide) "2025-01-02 09:30" rfl
  exact ⟨(h.1 ⟨"gym", "2025-01-02 09:30", false, some "daily", none⟩ (by decide)).1,
    h.2 [⟨"gym", "2025-01-02 09:30", false, some "daily", none⟩]⟩

end PTA
